import Mathlib

/-!
Verification of the modred work partitioner, parallel runtime facade,
vector-operations engine and POD decomposition layer, over a shallow
embedding of the code.  The engine modules (`util.py`, `parallel.py`,
`vecoperations.py`) are not part of the source tree available here, so
their operations are modelled from the specification, faithful to its
wording and to the expectations recorded in `testutil.py` and
`tests/testvecoperations.py`; `src/pod.py` is embedded directly from the
source.
-/

/-- Modelled from the spec: the per-worker chunk size used by
`util.MPI.find_consec_proc_assignments` (module `util.py` missing from the
sources): the ceiling of `numTasks / numProcs`, as pinned down by the
spec's examples (`assign_consecutive(10, 3) == [0, 4, 8, 10]`) and by
`testutil.py` lines 62-103. -/
def num_tasks_per_proc (numTasks numProcs : ℕ) : ℕ :=
  (numTasks + numProcs - 1) / numProcs

/-- Modelled from the spec: `util.MPI.find_consec_proc_assignments`
(module `util.py` missing from the sources).  Returns the `numProcs + 1`
boundary indices; boundary `k` is `min (k * chunk) numTasks` where `chunk`
is the ceiling of `numTasks / numProcs`, matching every concrete value in
the spec's §8 and in `testutil.py`. -/
def find_consec_proc_assignments (numTasks numProcs : ℕ) : List ℕ :=
  (List.range (numProcs + 1)).map
    (fun k => min (k * num_tasks_per_proc numTasks numProcs) numTasks)

/-- Modelled from the spec: `util.MPI.find_proc_assignments` (module
`util.py` missing from the sources).  Worker `k` receives the slice
`taskList[k * chunk : (k + 1) * chunk]`, so the sub-list sizes follow the
boundaries of `find_consec_proc_assignments`. -/
def find_proc_assignments {β : Type} (taskList : List β) (numProcs : ℕ) :
    List (List β) :=
  (List.range numProcs).map
    (fun k =>
      (taskList.drop (k * num_tasks_per_proc taskList.length numProcs)).take
        (num_tasks_per_proc taskList.length numProcs))

lemma le_ceil_mul (T c : ℕ) (hc : 1 ≤ c) : T ≤ ((T + c - 1) / c) * c := by
  rcases Nat.eq_zero_or_pos T with hT | hT
  · subst hT
    exact Nat.zero_le _
  · have he : T + c - 1 = (T - 1) + c := by omega
    rw [he, Nat.add_div_right _ hc]
    have h1 := Nat.div_add_mod (T - 1) c
    have h2 : (T - 1) % c < c := Nat.mod_lt _ hc
    have h3 : ((T - 1) / c + 1) * c = c * ((T - 1) / c) + c := by ring
    rw [h3]
    generalize hX : c * ((T - 1) / c) = X at h1
    generalize hr : (T - 1) % c = r at h1 h2
    omega

lemma flatten_segments {β : Type} (c : ℕ) (_hc : 1 ≤ c) :
    ∀ (m : ℕ) (l : List β), l.length ≤ m * c →
      ((List.range m).map (fun k => (l.drop (k * c)).take c)).flatten = l := by
  intro m
  induction m with
  | zero =>
    intro l hl
    simp only [Nat.zero_mul, Nat.le_zero] at hl
    simp [List.eq_nil_of_length_eq_zero hl]
  | succ m ih =>
    intro l hl
    rw [List.range_succ_eq_map, List.map_cons, List.flatten_cons, List.map_map]
    have hmaps : (List.range m).map ((fun k => (l.drop (k * c)).take c) ∘ Nat.succ)
        = (List.range m).map (fun k => ((l.drop c).drop (k * c)).take c) := by
      refine List.map_congr_left (fun k _ => ?_)
      show (l.drop (Nat.succ k * c)).take c = ((l.drop c).drop (k * c)).take c
      rw [List.drop_drop]
      have hsk : Nat.succ k * c = c + k * c := by
        rw [Nat.succ_mul, Nat.add_comm]
      rw [hsk]
    have hlen : (l.drop c).length ≤ m * c := by
      rw [List.length_drop]
      have hmc : (m + 1) * c = m * c + c := Nat.succ_mul m c
      omega
    rw [hmaps, ih (l.drop c) hlen]
    simp only [Nat.zero_mul, List.drop_zero]
    exact List.take_append_drop c l

lemma flatten_map_nil {β γ : Type} (l : List γ) :
    (l.map (fun _ => ([] : List β))).flatten = [] := by
  induction l with
  | nil => rfl
  | cons a l ih => simp [ih]

lemma flatten_find_proc_assignments {β : Type} (taskList : List β) (P : ℕ)
    (hP : 1 ≤ P) : (find_proc_assignments taskList P).flatten = taskList := by
  rcases Nat.eq_zero_or_pos taskList.length with h0 | h0
  · have hnil : taskList = [] := List.eq_nil_of_length_eq_zero h0
    subst hnil
    simp only [find_proc_assignments, List.drop_nil, List.take_nil]
    exact flatten_map_nil _
  · have hc : 1 ≤ num_tasks_per_proc taskList.length P := by
      unfold num_tasks_per_proc
      rw [Nat.le_div_iff_mul_le (by omega : 0 < P)]
      omega
    have hlen : taskList.length ≤ P * num_tasks_per_proc taskList.length P := by
      have h := le_ceil_mul taskList.length P hP
      rw [Nat.mul_comm]
      exact h
    exact flatten_segments _ hc P taskList hlen

lemma flatten_chunks_aux {β : Type} (c : ℕ) (l : List β) :
    ((List.range ((l.length + max c 1 - 1) / max c 1)).map
      (fun k => (l.drop (k * max c 1)).take (max c 1))).flatten = l := by
  have hc : 1 ≤ max c 1 := le_max_right c 1
  exact flatten_segments (max c 1) hc _ l (le_ceil_mul l.length (max c 1) hc)

lemma getD_range_map {β : Type} (f : ℕ → β) (n k : ℕ) (d : β) (h : k < n) :
    ((List.range n).map f).getD k d = f k := by
  rw [List.getD_eq_getElem?_getD, List.getElem?_map, List.getElem?_range h]
  rfl

lemma getD_find_consec (T P k : ℕ) (hk : k ≤ P) :
    (find_consec_proc_assignments T P).getD k 0
      = min (k * num_tasks_per_proc T P) T := by
  unfold find_consec_proc_assignments
  rw [getD_range_map _ _ _ _ (by omega)]

lemma find_consec_size (T P k : ℕ) (hk : k < P) :
    (find_consec_proc_assignments T P).getD (k + 1) 0
        - (find_consec_proc_assignments T P).getD k 0
      = min (num_tasks_per_proc T P) (T - k * num_tasks_per_proc T P) := by
  rw [getD_find_consec T P (k + 1) (by omega), getD_find_consec T P k (by omega)]
  have hb : (k + 1) * num_tasks_per_proc T P
      = k * num_tasks_per_proc T P + num_tasks_per_proc T P := by ring
  rw [hb]
  generalize k * num_tasks_per_proc T P = a
  generalize num_tasks_per_proc T P = c
  simp only [Nat.min_def]
  split_ifs <;> omega

/-- C5 (amended): for every task count `T` and worker count `P ≥ 1`,
`find_consec_proc_assignments T P` returns `P + 1` boundary indices
starting at `0` and ending at `T`; worker `k` owns the tasks between
boundaries `k` and `k + 1`; every chunk has size at most the ceiling of
`T / P`, and the sizes are non-increasing, so earlier workers receive at
least as large a share as later ones.  (The original claim's "sizes differ
by at most 1" fails: at `T = 10`, `P = 3` the sizes are 4, 4, 2.) -/
theorem C5_find_consec_proc_assignments_amended (T P : ℕ) (hP : 1 ≤ P) :
    (find_consec_proc_assignments T P).length = P + 1
    ∧ (find_consec_proc_assignments T P).getD 0 0 = 0
    ∧ (find_consec_proc_assignments T P).getD P 0 = T
    ∧ (∀ k, k < P →
        (find_consec_proc_assignments T P).getD k 0
          ≤ (find_consec_proc_assignments T P).getD (k + 1) 0)
    ∧ (∀ k, k + 1 < P →
        (find_consec_proc_assignments T P).getD (k + 2) 0
            - (find_consec_proc_assignments T P).getD (k + 1) 0
          ≤ (find_consec_proc_assignments T P).getD (k + 1) 0
            - (find_consec_proc_assignments T P).getD k 0)
    ∧ (∀ k, k < P →
        (find_consec_proc_assignments T P).getD (k + 1) 0
            - (find_consec_proc_assignments T P).getD k 0
          ≤ num_tasks_per_proc T P) := by
  refine ⟨?_, ?_, ?_, ?_, ?_, ?_⟩
  · simp [find_consec_proc_assignments]
  · rw [getD_find_consec T P 0 (Nat.zero_le P)]
    simp
  · rw [getD_find_consec T P P le_rfl]
    have h := le_ceil_mul T P hP
    have hTP : T ≤ P * num_tasks_per_proc T P := by
      rw [Nat.mul_comm]
      exact h
    exact min_eq_right hTP
  · intro k hk
    rw [getD_find_consec T P k (by omega), getD_find_consec T P (k + 1) (by omega)]
    have hb : (k + 1) * num_tasks_per_proc T P
        = k * num_tasks_per_proc T P + num_tasks_per_proc T P := by ring
    rw [hb]
    generalize k * num_tasks_per_proc T P = a
    generalize num_tasks_per_proc T P = c
    simp only [Nat.min_def]
    split_ifs <;> omega
  · intro k hk
    rw [find_consec_size T P k (by omega), find_consec_size T P (k + 1) (by omega)]
    have hb : (k + 1) * num_tasks_per_proc T P
        = k * num_tasks_per_proc T P + num_tasks_per_proc T P := by ring
    rw [hb]
    generalize k * num_tasks_per_proc T P = a
    generalize num_tasks_per_proc T P = c
    simp only [Nat.min_def]
    split_ifs <;> omega
  · intro k hk
    rw [find_consec_size T P k hk]
    exact Nat.min_le_left _ _

/-- Witness for C5 at `T = 10`, `P = 3`. -/
theorem C5_witness :
    (1 : ℕ) ≤ 3 ∧ (find_consec_proc_assignments 10 3).length = 3 + 1 :=
  ⟨by decide, (C5_find_consec_proc_assignments_amended 10 3 (by decide)).1⟩

/-- Counterexample to C5 as stated: at `T = 10`, `P = 3` the chunk sizes
are 4, 4, 2, so two chunk sizes differ by 2 — they do not differ by at
most 1. -/
theorem C5_counterexample :
    ¬ (∀ k1, k1 < 3 → ∀ k2, k2 < 3 →
        (find_consec_proc_assignments 10 3).getD (k1 + 1) 0
            - (find_consec_proc_assignments 10 3).getD k1 0
          ≤ ((find_consec_proc_assignments 10 3).getD (k2 + 1) 0
            - (find_consec_proc_assignments 10 3).getD k2 0) + 1) :=
  fun h => absurd (h 0 (by decide) 2 (by decide)) (by decide)

/-- C6: the two concrete boundary lists expected by the spec and by
`testutil.py`: `assign_consecutive(10, 3) = [0, 4, 8, 10]` and
`assign_consecutive(10, 4) = [0, 3, 6, 9, 10]`. -/
theorem C6_find_consec_proc_assignments_values :
    find_consec_proc_assignments 10 3 = [0, 4, 8, 10]
    ∧ find_consec_proc_assignments 10 4 = [0, 3, 6, 9, 10] := by
  decide

/-- C7: for every ordered task list and worker count `P ≥ 1`,
`find_proc_assignments` returns exactly `P` ordered sub-lists whose
concatenation is the input list, whose sizes match the consecutive chunk
sizes of `find_consec_proc_assignments`, and excess workers (beyond the
tasks) receive empty sub-lists; concretely, the spec's string example
splits as `[' 1 2 4 ', ' 8 16 32 ', ' 64 128 ']`. -/
theorem C7_find_proc_assignments_spec {β : Type} (l : List β) (P : ℕ)
    (hP : 1 ≤ P) :
    (find_proc_assignments l P).length = P
    ∧ (find_proc_assignments l P).flatten = l
    ∧ (∀ k, k < P →
        ((find_proc_assignments l P).getD k []).length
          = (find_consec_proc_assignments l.length P).getD (k + 1) 0
            - (find_consec_proc_assignments l.length P).getD k 0)
    ∧ (∀ k, k < P → l.length ≤ k * num_tasks_per_proc l.length P →
        (find_proc_assignments l P).getD k [] = [])
    ∧ find_proc_assignments ["1", "2", "4", "8", "16", "32", "64", "128"] 3
        = [["1", "2", "4"], ["8", "16", "32"], ["64", "128"]] := by
  refine ⟨?_, flatten_find_proc_assignments l P hP, ?_, ?_, by decide⟩
  · simp [find_proc_assignments]
  · intro k hk
    rw [find_consec_size l.length P k hk]
    unfold find_proc_assignments
    rw [getD_range_map _ _ _ _ hk]
    rw [List.length_take, List.length_drop]
  · intro k hk hle
    unfold find_proc_assignments
    rw [getD_range_map _ _ _ _ hk]
    rw [List.drop_eq_nil_of_le hle, List.take_nil]

/-- Witness for C7 on a small concrete list with two workers. -/
theorem C7_witness :
    (1 : ℕ) ≤ 2 ∧ (find_proc_assignments [10, 20, 30] 2).flatten = [10, 20, 30] :=
  ⟨by decide, (C7_find_proc_assignments_spec [10, 20, 30] 2 (by decide)).2.1⟩

/-- Modelled from the spec: the Memory-Budget chunking of §4.3 and the
glossary entry "Chunking" (the `vecoperations.py` engine is missing from
the sources): a list is split into consecutive chunks of the given size,
clamped to at least one because `max_vecs_per_proc` is at least 2 by
construction. -/
def chunksOf {β : Type} (c : ℕ) (l : List β) : List (List β) :=
  (List.range ((l.length + max c 1 - 1) / max c 1)).map
    (fun k => (l.drop (k * max c 1)).take (max c 1))

lemma flatten_chunksOf {β : Type} (c : ℕ) (l : List β) :
    (chunksOf c l).flatten = l :=
  flatten_chunks_aux c l

lemma sum_map_indicator {α : Type} [AddCommMonoid α] (i : ℕ) (x : α) :
    ∀ css : List (List ℕ), css.flatten.Nodup →
      (css.map (fun cs => if i ∈ cs then x else 0)).sum
        = if i ∈ css.flatten then x else 0 := by
  intro css
  induction css with
  | nil => intro _h; simp
  | cons cs rest ih =>
    intro h
    rw [List.flatten_cons] at h ⊢
    rw [List.map_cons, List.sum_cons]
    rw [List.nodup_append] at h
    rw [ih h.2.1]
    by_cases hi : i ∈ cs
    · have hnot : i ∉ rest.flatten := fun hmem => h.2.2 hi hmem
      simp [hi, hnot, List.mem_append]
    · simp [hi, List.mem_append]

lemma sum_map_find_proc_assignments {α β : Type} [AddCommMonoid α]
    (l : List β) (P : ℕ) (hP : 1 ≤ P) (f : β → α) :
    ((find_proc_assignments l P).map (fun seg => (seg.map f).sum)).sum
      = (l.map f).sum := by
  conv_rhs => rw [← flatten_find_proc_assignments l P hP]
  rw [List.map_flatten, List.sum_flatten, List.map_map]
  rfl

lemma sum_map_chunksOf {α β : Type} [AddCommMonoid α] (c : ℕ) (l : List β)
    (f : β → α) :
    ((chunksOf c l).map (fun ch => (ch.map f).sum)).sum = (l.map f).sum := by
  conv_rhs => rw [← flatten_chunksOf c l]
  rw [List.map_flatten, List.sum_flatten, List.map_map]
  rfl

lemma map_flatten_find_proc_assignments {β γ : Type} (l : List β) (P : ℕ)
    (hP : 1 ≤ P) (g : β → γ) :
    ((find_proc_assignments l P).map (List.map g)).flatten = l.map g := by
  rw [← List.map_flatten, flatten_find_proc_assignments l P hP]

lemma sum_map_flatMap {α β γ : Type} [AddCommMonoid α] (l : List β)
    (g : β → List γ) (f : γ → α) :
    ((l.flatMap g).map f).sum
      = (l.map (fun a => ((g a).map f).sum)).sum := by
  induction l with
  | nil => rfl
  | cons a l ih =>
    rw [List.flatMap_cons, List.map_append, List.sum_append, ih,
      List.map_cons, List.sum_cons]

/-- Modelled from the spec: §4.3 and §9, the implicit type coercion of
singleton inputs — the engine's handle arguments are either a single
handle or a list of handles (engine missing from the sources). -/
inductive HandleArg (V : Type) where
  | single : V → HandleArg V
  | list : List V → HandleArg V

/-- Modelled from the spec: the normalization step that turns a singleton
handle input into a one-element list at the API boundary. -/
def make_list {V : Type} : HandleArg V → List V
  | HandleArg.single v => [v]
  | HandleArg.list l => l

/-- Modelled from the spec: the (row-chunk, column-chunk) work pairs of
`VecOperations.compute_inner_product_mat` (engine missing from the
sources).  The row and column index sets are split into Memory-Budget
chunks and all chunk pairs are enumerated. -/
def pair_chunks (cr cc nrows ncols : ℕ) : List (List ℕ × List ℕ) :=
  (chunksOf cr (List.range nrows)).flatMap
    (fun rc => (chunksOf cc (List.range ncols)).map (fun cchunk => (rc, cchunk)))

/-- Modelled from the spec: one entry of the distributed inner-product
matrix of `VecOperations.compute_inner_product_mat` (engine missing from
the sources).  The work pairs are distributed across the `P` workers via
the Partitioner; each worker computes, for its assigned pairs, the
pairwise inner products of the fetched chunk vectors — entry `(i, j)`
receives a contribution exactly when `i` lies in the pair's row chunk and
`j` in its column chunk; the partial matrices are combined entrywise by
the sum reduction, and the broadcast result is identical on every
worker. -/
def ip_mat_entry {V α : Type} [Inhabited V] [AddCommMonoid α]
    (ip : V → V → α) (cr cc P : ℕ) (rows cols : List V) (i j : ℕ) : α :=
  ((find_proc_assignments (pair_chunks cr cc rows.length cols.length) P).map
    (fun tasks =>
      (tasks.map (fun rcc =>
        if i ∈ rcc.1 ∧ j ∈ rcc.2 then
          ip (rows.getD i default) (cols.getD j default)
        else 0)).sum)).sum

/-- Modelled from the spec: `VecOperations.compute_inner_product_mat`
(engine missing from the sources), with singleton inputs normalized into
one-element lists.  The matrix is represented by its entry function. -/
def compute_inner_product_mat {V α : Type} [Inhabited V] [AddCommMonoid α]
    (ip : V → V → α) (cr cc P : ℕ) (rowHandles colHandles : HandleArg V) :
    ℕ → ℕ → α :=
  fun i j =>
    ip_mat_entry ip cr cc P (make_list rowHandles) (make_list colHandles) i j

lemma sum_pair_indicator {α : Type} [AddCommMonoid α] (i j : ℕ) (x : α)
    (rcs ccs : List (List ℕ)) (hr : rcs.flatten.Nodup)
    (hc : ccs.flatten.Nodup) :
    ((rcs.flatMap (fun rc => ccs.map (fun cchunk => (rc, cchunk)))).map
        (fun rcc => if i ∈ rcc.1 ∧ j ∈ rcc.2 then x else 0)).sum
      = if i ∈ rcs.flatten ∧ j ∈ ccs.flatten then x else 0 := by
  rw [sum_map_flatMap]
  have hinner : ∀ rc ∈ rcs,
      ((ccs.map (fun cchunk => (rc, cchunk))).map
        (fun rcc => if i ∈ rcc.1 ∧ j ∈ rcc.2 then x else 0)).sum
        = if i ∈ rc then (if j ∈ ccs.flatten then x else 0) else 0 := by
    intro rc _
    rw [List.map_map]
    by_cases hi : i ∈ rc
    · rw [if_pos hi]
      have hfun : ((fun rcc : List ℕ × List ℕ =>
            if i ∈ rcc.1 ∧ j ∈ rcc.2 then x else 0) ∘ fun cchunk => (rc, cchunk))
          = fun cchunk => if j ∈ cchunk then x else 0 := by
        funext cchunk
        simp [hi]
      rw [hfun]
      exact sum_map_indicator j x ccs hc
    · rw [if_neg hi]
      have hfun : ((fun rcc : List ℕ × List ℕ =>
            if i ∈ rcc.1 ∧ j ∈ rcc.2 then x else 0) ∘ fun cchunk => (rc, cchunk))
          = fun _ => (0 : α) := by
        funext cchunk
        simp [hi]
      rw [hfun]
      simp
  rw [List.map_congr_left hinner]
  rw [sum_map_indicator i _ rcs hr]
  by_cases hi : i ∈ rcs.flatten <;> by_cases hj : j ∈ ccs.flatten <;>
    simp [hi, hj]

lemma nodup_flatten_chunksOf_range (c n : ℕ) :
    ((chunksOf c (List.range n)).flatten).Nodup := by
  rw [flatten_chunksOf]
  exact List.nodup_range n

lemma ip_mat_entry_eq {V α : Type} [Inhabited V] [AddCommMonoid α]
    (ip : V → V → α) (cr cc P : ℕ) (hP : 1 ≤ P) (rows cols : List V)
    (i j : ℕ) :
    ip_mat_entry ip cr cc P rows cols i j
      = if i < rows.length ∧ j < cols.length then
          ip (rows.getD i default) (cols.getD j default)
        else 0 := by
  unfold ip_mat_entry
  rw [sum_map_find_proc_assignments _ P hP]
  unfold pair_chunks
  rw [sum_pair_indicator i j _ _ _ (nodup_flatten_chunksOf_range cr rows.length)
    (nodup_flatten_chunksOf_range cc cols.length)]
  rw [flatten_chunksOf, flatten_chunksOf]
  simp [List.mem_range]

/-- C1: for all row and column handle inputs, every entry `(i, j)` of
`compute_inner_product_mat A B` equals the inner product of the `i`-th row
vector and the `j`-th column vector; the whole result matrix is
independent of the worker count; and a single (non-list) handle behaves
exactly as the corresponding one-element list. -/
theorem C1_compute_inner_product_mat_spec {V α : Type} [Inhabited V]
    [AddCommMonoid α] (ip : V → V → α) (cr cc P Q : ℕ) (hP : 1 ≤ P)
    (hQ : 1 ≤ Q) (A B : HandleArg V) :
    (∀ i j, i < (make_list A).length → j < (make_list B).length →
      compute_inner_product_mat ip cr cc P A B i j
        = ip ((make_list A).getD i default) ((make_list B).getD j default))
    ∧ compute_inner_product_mat ip cr cc P A B
        = compute_inner_product_mat ip cr cc Q A B
    ∧ (∀ v : V, compute_inner_product_mat ip cr cc P (HandleArg.single v) B
        = compute_inner_product_mat ip cr cc P (HandleArg.list [v]) B) := by
  refine ⟨?_, ?_, fun v => rfl⟩
  · intro i j hi hj
    unfold compute_inner_product_mat
    rw [ip_mat_entry_eq ip cr cc P hP, if_pos ⟨hi, hj⟩]
  · funext i j
    unfold compute_inner_product_mat
    rw [ip_mat_entry_eq ip cr cc P hP, ip_mat_entry_eq ip cr cc Q hQ]

/-- Witness for C1 on concrete integer data. -/
theorem C1_witness :
    (1 : ℕ) ≤ 1 ∧ (1 : ℕ) ≤ 2
    ∧ compute_inner_product_mat (fun a b : ℤ => a * b) 1 1 1
        (HandleArg.single 3) (HandleArg.list [2, 5]) 0 1 = 15 := by
  refine ⟨by decide, by decide, ?_⟩
  have h := (C1_compute_inner_product_mat_spec (fun a b : ℤ => a * b) 1 1 1 2
    (by decide) (by decide) (HandleArg.single 3) (HandleArg.list [2, 5])).1 0 1
    (by decide) (by decide)
  rw [h]
  decide

/-- Modelled from the spec:
`VecOperations.compute_symmetric_inner_product_mat` (engine missing from
the sources).  Only the upper-triangle pairs — diagonal included — are
computed, through the same chunked, worker-distributed machinery; every
lower-triangle entry is filled in as the conjugate of its mirror rather
than recomputed. -/
def compute_symmetric_inner_product_mat {V α : Type} [Inhabited V]
    [AddCommMonoid α] (ip : V → V → α) (conj : α → α) (cr cc P : ℕ)
    (vec_handles : List V) : ℕ → ℕ → α :=
  fun i j =>
    if i ≤ j then ip_mat_entry ip cr cc P vec_handles vec_handles i j
    else conj (ip_mat_entry ip cr cc P vec_handles vec_handles j i)

/-- C2: when the inner product is conjugate-symmetric, the symmetric
inner-product matrix agrees entrywise with the general
`compute_inner_product_mat` applied to `(A, A)`, and it is Hermitian:
`M i j = conj (M j i)` for all indices of the matrix. -/
theorem C2_compute_symmetric_inner_product_mat_spec {V α : Type} [Inhabited V]
    [AddCommMonoid α] (ip : V → V → α) (conj : α → α) (cr cc P : ℕ)
    (hP : 1 ≤ P) (A : List V) (hsym : ∀ a b, ip a b = conj (ip b a)) :
    (∀ i j, i < A.length → j < A.length →
      compute_symmetric_inner_product_mat ip conj cr cc P A i j
        = compute_inner_product_mat ip cr cc P (HandleArg.list A)
            (HandleArg.list A) i j)
    ∧ (∀ i j, i < A.length → j < A.length →
      compute_symmetric_inner_product_mat ip conj cr cc P A i j
        = conj (compute_symmetric_inner_product_mat ip conj cr cc P A j i)) := by
  have hconj : ∀ a b, conj (ip a b) = ip b a := fun a b => (hsym b a).symm
  have hent : ∀ i j, i < A.length → j < A.length →
      ip_mat_entry ip cr cc P A A i j
        = ip (A.getD i default) (A.getD j default) := by
    intro i j hi hj
    rw [ip_mat_entry_eq ip cr cc P hP, if_pos ⟨hi, hj⟩]
  refine ⟨?_, ?_⟩
  · intro i j hi hj
    unfold compute_symmetric_inner_product_mat compute_inner_product_mat
    simp only [make_list]
    by_cases hij : i ≤ j
    · rw [if_pos hij]
    · rw [if_neg hij, hent j i hj hi, hconj, hent i j hi hj]
  · intro i j hi hj
    unfold compute_symmetric_inner_product_mat
    by_cases hij : i ≤ j
    · rw [if_pos hij]
      by_cases hji : j ≤ i
      · rw [if_pos hji, hent i j hi hj, hent j i hj hi, hconj]
      · rw [if_neg hji, hent i j hi hj, hconj, hconj]
    · rw [if_neg hij, if_pos (by omega : j ≤ i)]

/-- Witness for C2 with the symmetric integer inner product. -/
theorem C2_witness :
    (1 : ℕ) ≤ 1
    ∧ compute_symmetric_inner_product_mat (fun a b : ℤ => a * b) id 1 1 1
        [1, 2] 1 0
        = compute_inner_product_mat (fun a b : ℤ => a * b) 1 1 1
            (HandleArg.list [1, 2]) (HandleArg.list [1, 2]) 1 0 := by
  refine ⟨by decide, ?_⟩
  exact (C2_compute_symmetric_inner_product_mat_spec (fun a b : ℤ => a * b) id
    1 1 1 (by decide) [1, 2] (fun a b => Int.mul_comm a b)).1 1 0
    (by decide) (by decide)

/-- Dense matrix with explicit shape, standing for a 2-D numpy array:
`rows`/`cols` give the shape, `entry` the values. -/
structure NumMat (α : Type) where
  rows : ℕ
  cols : ℕ
  entry : ℕ → ℕ → α

/-- Modelled from the spec: the `ValueError`-class validation conditions
of `VecOperations` mode computation (engine missing from the sources). -/
inductive VecOpsError where
  | wrongModeHandlesCount : VecOpsError
  | modeNumOutOfRange : VecOpsError
  | wrongVecHandlesCount : VecOpsError
  | moreModesThanVecs : VecOpsError
deriving DecidableEq

/-- Exact linear combination a mode is specified to be: the sum over all
input vectors of the vector scaled by its coefficient-matrix entry in the
mode's column. -/
def mode_value {V α : Type} [AddCommMonoid V] (smul : α → V → V)
    (vecs : List V) (coeff : NumMat α) (col : ℕ) : V :=
  ((List.range vecs.length).map
    (fun i => smul (coeff.entry i col) (vecs.getD i 0))).sum

/-- Modelled from the spec: the chunked accumulation of §4.3 (engine
missing from the sources) — input vectors are streamed in Memory-Budget
groups of size `c`, each group's contribution accumulated into the
mode. -/
def mode_value_chunked {V α : Type} [AddCommMonoid V] (smul : α → V → V)
    (c : ℕ) (vecs : List V) (coeff : NumMat α) (col : ℕ) : V :=
  ((chunksOf c (List.range vecs.length)).map
    (fun chunk =>
      (chunk.map (fun i => smul (coeff.entry i col) (vecs.getD i 0))).sum)).sum

/-- Modelled from the spec: `VecOperations._compute_modes` (engine missing
from the sources).  Validation happens first — a handle count differing
from the mode-number count, an out-of-range mode number, or a
coefficient-matrix row count differing from the vector count fail with a
`ValueError`-class condition before any computation or `put`.  The
requested modes are then distributed across the `P` workers via the
Partitioner; each worker computes its modes by chunked accumulation and
performs its own `put` through each mode's handle.  The result models the
list of `(handle, vector)` puts performed, across workers in assignment
order. -/
def _compute_modes {V α H : Type} [AddCommMonoid V] (smul : α → V → V)
    (c P : ℕ) (mode_nums : List ℤ) (mode_handles : List H)
    (vec_handles : List V) (coeff_mat : NumMat α) (index_from : ℤ) :
    Except VecOpsError (List (H × V)) :=
  if mode_handles.length ≠ mode_nums.length then
    Except.error VecOpsError.wrongModeHandlesCount
  else if ¬ (∀ n ∈ mode_nums,
      0 ≤ n - index_from ∧ n - index_from < (coeff_mat.cols : ℤ)) then
    Except.error VecOpsError.modeNumOutOfRange
  else if vec_handles.length ≠ coeff_mat.rows then
    Except.error VecOpsError.wrongVecHandlesCount
  else
    Except.ok
      (((find_proc_assignments (mode_nums.zip mode_handles) P).map
        (List.map (fun p =>
          (p.2, mode_value_chunked smul c vec_handles coeff_mat
            (p.1 - index_from).toNat)))).flatten)

/-- Modelled from the spec: `VecOperations.compute_modes` (engine missing
from the sources); additionally rejects requests for more modes than there
are input vectors (`tests/testvecoperations.py` lines 229-233) before
delegating to `_compute_modes`. -/
def compute_modes {V α H : Type} [AddCommMonoid V] (smul : α → V → V)
    (c P : ℕ) (mode_nums : List ℤ) (mode_handles : List H)
    (vec_handles : List V) (coeff_mat : NumMat α) (index_from : ℤ) :
    Except VecOpsError (List (H × V)) :=
  if vec_handles.length < mode_nums.length then
    Except.error VecOpsError.moreModesThanVecs
  else
    _compute_modes smul c P mode_nums mode_handles vec_handles coeff_mat
      index_from

/-- Modelled from the spec: `VecOperations.compute_modes_and_return`
(engine missing from the sources): same validation, but every worker's
computed modes are gathered via broadcast/reduction, so the return value
on every worker is the complete mode list in the caller's input order. -/
def compute_modes_and_return {V α : Type} [AddCommMonoid V]
    (smul : α → V → V) (c P : ℕ) (mode_nums : List ℤ) (vec_handles : List V)
    (coeff_mat : NumMat α) (index_from : ℤ) : Except VecOpsError (List V) :=
  if vec_handles.length < mode_nums.length then
    Except.error VecOpsError.moreModesThanVecs
  else if ¬ (∀ n ∈ mode_nums,
      0 ≤ n - index_from ∧ n - index_from < (coeff_mat.cols : ℤ)) then
    Except.error VecOpsError.modeNumOutOfRange
  else if vec_handles.length ≠ coeff_mat.rows then
    Except.error VecOpsError.wrongVecHandlesCount
  else
    Except.ok
      (((find_proc_assignments mode_nums P).map
        (List.map (fun n =>
          mode_value_chunked smul c vec_handles coeff_mat
            (n - index_from).toNat))).flatten)

lemma mode_value_chunked_eq {V α : Type} [AddCommMonoid V]
    (smul : α → V → V) (c : ℕ) (vecs : List V) (coeff : NumMat α) (col : ℕ) :
    mode_value_chunked smul c vecs coeff col
      = mode_value smul vecs coeff col := by
  unfold mode_value_chunked mode_value
  exact sum_map_chunksOf c _ _

/-- C3: for every valid request the engine writes, for the `k`-th
requested mode number, through the `k`-th mode handle, exactly the linear
combination `sum_i vecs i * coeff (i, mode_num - index_from)`; the put
list is in the caller's input order and is independent of the
memory-budget chunk size and of the worker count; and
`compute_modes_and_return` returns the complete mode list in the caller's
input order. -/
theorem C3_compute_modes_spec {V α H : Type} [AddCommMonoid V]
    (smul : α → V → V) (c c2 P P2 : ℕ) (hP : 1 ≤ P) (hP2 : 1 ≤ P2)
    (mode_nums : List ℤ) (mode_handles : List H) (vec_handles : List V)
    (coeff_mat : NumMat α) (index_from : ℤ)
    (hlen : mode_handles.length = mode_nums.length)
    (hrange : ∀ n ∈ mode_nums,
      0 ≤ n - index_from ∧ n - index_from < (coeff_mat.cols : ℤ))
    (hrows : vec_handles.length = coeff_mat.rows)
    (hcount : mode_nums.length ≤ vec_handles.length) :
    compute_modes smul c P mode_nums mode_handles vec_handles coeff_mat
        index_from
      = Except.ok ((mode_nums.zip mode_handles).map (fun p =>
          (p.2, mode_value smul vec_handles coeff_mat
            (p.1 - index_from).toNat)))
    ∧ compute_modes smul c P mode_nums mode_handles vec_handles coeff_mat
        index_from
      = compute_modes smul c2 P2 mode_nums mode_handles vec_handles coeff_mat
        index_from
    ∧ compute_modes_and_return smul c P mode_nums vec_handles coeff_mat
        index_from
      = Except.ok (mode_nums.map (fun n =>
          mode_value smul vec_handles coeff_mat (n - index_from).toNat)) := by
  have hok : ∀ c' P' : ℕ, 1 ≤ P' →
      compute_modes smul c' P' mode_nums mode_handles vec_handles coeff_mat
          index_from
        = Except.ok ((mode_nums.zip mode_handles).map (fun p =>
            (p.2, mode_value smul vec_handles coeff_mat
              (p.1 - index_from).toNat))) := by
    intro c' P' hP'
    unfold compute_modes _compute_modes
    rw [if_neg (by omega), if_neg (by omega), if_neg (not_not_intro hrange),
      if_neg (by omega)]
    rw [map_flatten_find_proc_assignments _ P' hP']
    exact congrArg Except.ok
      (List.map_congr_left (fun p _ => by rw [mode_value_chunked_eq]))
  have hret :
      compute_modes_and_return smul c P mode_nums vec_handles coeff_mat
          index_from
        = Except.ok (mode_nums.map (fun n =>
            mode_value smul vec_handles coeff_mat (n - index_from).toNat)) := by
    unfold compute_modes_and_return
    rw [if_neg (by omega), if_neg (not_not_intro hrange), if_neg (by omega)]
    rw [map_flatten_find_proc_assignments _ P hP]
    exact congrArg Except.ok
      (List.map_congr_left (fun n _ => by rw [mode_value_chunked_eq]))
  exact ⟨hok c P hP, (hok c P hP).trans (hok c2 P2 hP2).symm, hret⟩

/-- Witness for C3 on concrete integer data. -/
theorem C3_witness :
    (1 : ℕ) ≤ 1
    ∧ compute_modes (fun a v : ℤ => a * v) 1 1 [1, 0] [7, 8] [2, 3]
        (NumMat.mk 2 2 (fun i j => (i : ℤ) + 2 * j)) 0
      = Except.ok ((([1, 0] : List ℤ).zip ([7, 8] : List ℕ)).map (fun p =>
          (p.2, mode_value (fun a v : ℤ => a * v) [2, 3]
            (NumMat.mk 2 2 (fun i j => (i : ℤ) + 2 * j))
            (p.1 - 0).toNat))) :=
  ⟨by decide, (C3_compute_modes_spec (fun a v : ℤ => a * v) 1 1 1 1
    (by decide) (by decide) [1, 0] [7, 8] [2, 3]
    (NumMat.mk 2 2 (fun i j => (i : ℤ) + 2 * j)) 0 (by decide) (by decide)
    (by decide) (by decide)).1⟩

/-- C4: `compute_modes` fails with a `ValueError`-class condition — and
performs no put — whenever any requested mode number minus `index_from`
falls outside the coefficient matrix's column range, or the handle count
differs from the mode-number count, or the vector count differs from the
coefficient matrix's row count, or more modes are requested than there
are input vectors. -/
theorem C4_compute_modes_validation {V α H : Type} [AddCommMonoid V]
    (smul : α → V → V) (c P : ℕ) (mode_nums : List ℤ) (mode_handles : List H)
    (vec_handles : List V) (coeff_mat : NumMat α) (index_from : ℤ)
    (hbad : mode_handles.length ≠ mode_nums.length
      ∨ (∃ n ∈ mode_nums,
          ¬ (0 ≤ n - index_from ∧ n - index_from < (coeff_mat.cols : ℤ)))
      ∨ vec_handles.length ≠ coeff_mat.rows
      ∨ vec_handles.length < mode_nums.length) :
    (∃ e, compute_modes smul c P mode_nums mode_handles vec_handles coeff_mat
        index_from = Except.error e)
    ∧ ∀ puts, compute_modes smul c P mode_nums mode_handles vec_handles
        coeff_mat index_from ≠ Except.ok puts := by
  have herr : ∃ e, compute_modes smul c P mode_nums mode_handles vec_handles
      coeff_mat index_from = Except.error e := by
    unfold compute_modes _compute_modes
    by_cases h1 : vec_handles.length < mode_nums.length
    · exact ⟨_, if_pos h1⟩
    · rw [if_neg h1]
      by_cases h2 : mode_handles.length ≠ mode_nums.length
      · exact ⟨_, if_pos h2⟩
      · rw [if_neg h2]
        by_cases h3 : ∀ n ∈ mode_nums,
            0 ≤ n - index_from ∧ n - index_from < (coeff_mat.cols : ℤ)
        · rw [if_neg (not_not_intro h3)]
          have h4 : vec_handles.length ≠ coeff_mat.rows := by
            rcases hbad with hb | hb | hb | hb
            · exact absurd hb h2
            · rcases hb with ⟨n, hn, hviol⟩
              exact absurd (h3 n hn) hviol
            · exact hb
            · exact absurd hb h1
          exact ⟨_, if_pos h4⟩
        · exact ⟨_, if_pos h3⟩
  refine ⟨herr, ?_⟩
  intro puts hok
  rcases herr with ⟨e, he⟩
  rw [hok] at he
  exact Except.noConfusion he

/-- Witness for C4: a request whose mode number 5 is out of range for a
two-column coefficient matrix is rejected. -/
theorem C4_witness :
    ∃ e, compute_modes (fun a v : ℤ => a * v) 1 1 [5] [7] [2, 3]
        (NumMat.mk 2 2 (fun i j => (i : ℤ) + 2 * j)) 0 = Except.error e :=
  (C4_compute_modes_validation (fun a v : ℤ => a * v) 1 1 [5] [7] [2, 3]
    (NumMat.mk 2 2 (fun i j => (i : ℤ) + 2 * j)) 0
    (Or.inr (Or.inl ⟨5, by decide, by decide⟩))).1

/-- Modelled from the spec: the duck-typed vector capability API of §3
and §9 (module `vectors.py` missing from the sources).  In a pure
embedding, an operator that may mutate its operands is modelled by
returning, besides its result, the value of each operand after the call:
`add v w` returns `(result, v-after, w-after)` and `scale v s` returns
`(result, v-after)`. -/
structure VecAPI (V : Type) where
  add : V → V → V × V × V
  scale : V → ℤ → V × V

/-- Modelled from the spec: the `InvalidVectorTypeError`-class condition
that `idiot_check` fails with (the tests observe it as a `ValueError`). -/
inductive VecCheckError where
  | invalidVecAdd : VecCheckError
  | invalidVecScale : VecCheckError
deriving DecidableEq

/-- Modelled from the spec: `VecOperations.idiot_check` (engine missing
from the sources).  From one sample vector it forms `v + v` and `v * 2`,
compares each operand with its deep copy afterwards, and fails if either
operator mutated an operand in place. -/
def idiot_check {V : Type} [DecidableEq V] (api : VecAPI V) (v : V) :
    Except VecCheckError Unit :=
  if (api.add v v).2.1 ≠ v ∨ (api.add v v).2.2 ≠ v then
    Except.error VecCheckError.invalidVecAdd
  else if (api.scale v 2).2 ≠ v then
    Except.error VecCheckError.invalidVecScale
  else Except.ok ()

/-- C8: `idiot_check` fails whenever the checked call to `add` or `scale`
mutates an operand in place, and succeeds for every vector type whose
operators return new values leaving both operands unchanged. -/
theorem C8_idiot_check_spec {V : Type} [DecidableEq V] (api : VecAPI V)
    (v : V) :
    (((api.add v v).2.1 ≠ v ∨ (api.add v v).2.2 ≠ v
        ∨ (api.scale v 2).2 ≠ v) →
      ∃ e, idiot_check api v = Except.error e)
    ∧ ((∀ a b, (api.add a b).2.1 = a ∧ (api.add a b).2.2 = b) →
      (∀ a s, (api.scale a s).2 = a) →
      idiot_check api v = Except.ok ()) := by
  constructor
  · intro hmut
    unfold idiot_check
    by_cases h1 : (api.add v v).2.1 ≠ v ∨ (api.add v v).2.2 ≠ v
    · exact ⟨_, if_pos h1⟩
    · rw [if_neg h1]
      have h2 : (api.scale v 2).2 ≠ v := by tauto
      exact ⟨_, if_pos h2⟩
  · intro hadd hscale
    unfold idiot_check
    rw [if_neg (by push_neg; exact ⟨(hadd v v).1, (hadd v v).2⟩),
      if_neg (not_not_intro (hscale v 2))]

/-- Witness for C8: an integer vector type whose scaling mutates its
operand is rejected, and the well-behaved integer type passes. -/
theorem C8_witness :
    (∃ e, idiot_check
        (VecAPI.mk (fun a b => (a + b, a, b)) (fun a s => (a * s, a * s)))
        (1 : ℤ) = Except.error e)
    ∧ idiot_check
        (VecAPI.mk (fun a b => (a + b, a, b)) (fun a s => (a * s, a)))
        (1 : ℤ) = Except.ok () :=
  ⟨(C8_idiot_check_spec
      (VecAPI.mk (fun a b => (a + b, a, b)) (fun a s => (a * s, a * s))) 1).1
      (Or.inr (Or.inr (by decide))),
    (C8_idiot_check_spec
      (VecAPI.mk (fun a b => (a + b, a, b)) (fun a s => (a * s, a))) 1).2
      (fun a b => ⟨rfl, rfl⟩) (fun a s => rfl)⟩

/-- Modelled from the spec: the `util.MPI` constructor's worker-count
handling (module `util.py` missing from the sources), pinned by
`testutil.py` test_MPI_init: a requested count of zero, or one exceeding
the available processor count, defaults to the available count; any count
between 1 and the available count is kept. -/
def MPI_init_numProcs (requested available : ℕ) : ℕ :=
  if requested = 0 ∨ available < requested then available else requested

/-- C10: constructing the runtime facade with a non-sensible worker count
clamps it to the available processor count — zero and any count above the
available count both yield the available count — while a count between 1
and the available count is kept as given; no error condition exists. -/
theorem C10_MPI_init_numProcs_spec (available : ℕ) :
    MPI_init_numProcs 0 available = available
    ∧ (∀ r, available < r → MPI_init_numProcs r available = available)
    ∧ (∀ r, 1 ≤ r → r ≤ available → MPI_init_numProcs r available = r) := by
  refine ⟨?_, ?_, ?_⟩
  · unfold MPI_init_numProcs
    rw [if_pos (Or.inl rfl)]
  · intro r hr
    unfold MPI_init_numProcs
    rw [if_pos (Or.inr hr)]
  · intro r h1 h2
    unfold MPI_init_numProcs
    rw [if_neg (by omega)]

/-- Witness for C10 with four available processors. -/
theorem C10_witness :
    MPI_init_numProcs 0 4 = 4 ∧ MPI_init_numProcs 7 4 = 4
    ∧ MPI_init_numProcs 3 4 = 3 :=
  ⟨(C10_MPI_init_numProcs_spec 4).1,
    (C10_MPI_init_numProcs_spec 4).2.1 7 (by decide),
    (C10_MPI_init_numProcs_spec 4).2.2 3 (by decide) (by decide)⟩

/-- Matrix product of shape-carrying matrices, summing over the columns
of the left factor (`numpy.dot`). -/
def matMul {α : Type} [NonUnitalNonAssocSemiring α] (A B : NumMat α) :
    NumMat α :=
  NumMat.mk A.rows B.cols
    (fun i j =>
      ((List.range A.cols).map (fun k => A.entry i k * B.entry k j)).sum)

/-- Diagonal matrix with the given list on the diagonal (`numpy.diag`). -/
def diagMat {α : Type} [Zero α] (d : List α) : NumMat α :=
  NumMat.mk d.length d.length (fun i j => if i = j then d.getD i 0 else 0)

lemma sum_map_ite_eq {α : Type} [AddCommMonoid α] (j : ℕ) (x : α) :
    ∀ l : List ℕ, l.Nodup →
      (l.map (fun k => if k = j then x else 0)).sum
        = if j ∈ l then x else 0 := by
  intro l
  induction l with
  | nil => intro _h; simp
  | cons a l ih =>
    intro h
    rw [List.map_cons, List.sum_cons, ih h.of_cons]
    by_cases ha : a = j
    · subst ha
      have hnot : a ∉ l := (List.nodup_cons.mp h).1
      simp [hnot]
    · have hja : ¬ j = a := fun hh => ha hh.symm
      simp [List.mem_cons, ha, hja]

lemma matMul_diagMat_entry {α : Type} [NonUnitalNonAssocSemiring α]
    (A : NumMat α) (d : List α) (i j : ℕ) (hj : j < A.cols) :
    (matMul A (diagMat d)).entry i j = A.entry i j * d.getD j 0 := by
  unfold matMul diagMat
  show ((List.range A.cols).map
      (fun k => A.entry i k * (if k = j then d.getD k 0 else 0))).sum = _
  have hfun : (fun k => A.entry i k * (if k = j then d.getD k 0 else 0))
      = fun k => if k = j then A.entry i j * d.getD j 0 else 0 := by
    funext k
    by_cases hk : k = j
    · subst hk
      simp
    · simp [hk, mul_zero]
  rw [hfun, sum_map_ite_eq j _ (List.range A.cols) (List.nodup_range _)]
  rw [if_pos (List.mem_range.mpr hj)]

lemma getD_map_Lt {α β : Type} (f : α → β) (l : List α) (j : ℕ)
    (hj : j < l.length) (d : α) (d2 : β) :
    (l.map f).getD j d2 = f (l.getD j d) := by
  rw [List.getD_eq_getElem?_getD, List.getElem?_map,
    List.getElem?_eq_getElem hj]
  rw [List.getD_eq_getElem?_getD, List.getElem?_eq_getElem hj]
  rfl

/-- POD decomposition state, embedded from `src/pod.py`: `eigen_vecs` and
`eigen_vals` are `None` until a decomposition is computed or loaded. -/
structure PODState (α : Type) where
  eigen_vecs : Option (NumMat α)
  eigen_vals : Option (List α)

/-- Error conditions of `POD` mode computation: the `util.UndefinedError`
raised by `_compute_build_coeff_mat` (`src/pod.py` lines 165-173) and the
engine validation errors it propagates. -/
inductive PODError where
  | undefinedEigenVecs : PODError
  | undefinedEigenVals : PODError
  | engine : VecOpsError → PODError
deriving DecidableEq

/-- Embedded from `src/pod.py`, `POD._compute_build_coeff_mat`: raise an
`UndefinedError` when `eigen_vecs` (checked first) or `eigen_vals` is
`None`; otherwise return `dot(eigen_vecs, diag(eigen_vals ** -0.5))`,
where the scalar map `x ↦ x ** -0.5` is kept abstract as `rsqrt`. -/
def _compute_build_coeff_mat {α : Type} [NonUnitalNonAssocSemiring α]
    (rsqrt : α → α) (s : PODState α) : Except PODError (NumMat α) :=
  match s.eigen_vecs with
  | none => Except.error PODError.undefinedEigenVecs
  | some evecs =>
    match s.eigen_vals with
    | none => Except.error PODError.undefinedEigenVals
    | some evals => Except.ok (matMul evecs (diagMat (evals.map rsqrt)))

/-- Embedded from `src/pod.py`, `POD.compute_modes`: build the coefficient
matrix — raising `UndefinedError` when the decomposition is missing,
before any engine call, mode computation or handle write — then delegate
to the engine's mode computation with that coefficient matrix. -/
def POD_compute_modes {V α H : Type} [AddCommMonoid V]
    [NonUnitalNonAssocSemiring α] (rsqrt : α → α) (smul : α → V → V)
    (c P : ℕ) (s : PODState α) (mode_nums : List ℤ) (mode_handles : List H)
    (vec_handles : List V) (index_from : ℤ) :
    Except PODError (List (H × V)) :=
  match _compute_build_coeff_mat rsqrt s with
  | Except.error e => Except.error e
  | Except.ok coeff =>
    match compute_modes smul c P mode_nums mode_handles vec_handles coeff
        index_from with
    | Except.error e => Except.error (PODError.engine e)
    | Except.ok puts => Except.ok puts

/-- C9: `POD.compute_modes` fails with an `UndefinedError` — before any
mode computation or handle write — whenever `eigen_vecs` or `eigen_vals`
is undefined; when both are defined, the coefficient matrix handed to the
engine is exactly `eigen_vecs * diag(eigen_vals ** -0.5)`, whose entry
`(i, j)` is `eigen_vecs (i, j) * rsqrt (eigen_vals j)`, and the engine is
called with precisely that matrix. -/
theorem C9_POD_compute_modes_spec {V α H : Type} [AddCommMonoid V]
    [NonUnitalNonAssocSemiring α] (rsqrt : α → α) (smul : α → V → V)
    (c P : ℕ) (s : PODState α) (mode_nums : List ℤ) (mode_handles : List H)
    (vec_handles : List V) (index_from : ℤ) :
    ((s.eigen_vecs = none ∨ s.eigen_vals = none) →
      (∃ e, POD_compute_modes rsqrt smul c P s mode_nums mode_handles
          vec_handles index_from = Except.error e)
      ∧ ∀ puts, POD_compute_modes rsqrt smul c P s mode_nums mode_handles
          vec_handles index_from ≠ Except.ok puts)
    ∧ (∀ U E, s.eigen_vecs = some U → s.eigen_vals = some E →
      _compute_build_coeff_mat rsqrt s
          = Except.ok (matMul U (diagMat (E.map rsqrt)))
      ∧ (∀ i j, j < U.cols → j < E.length →
          (matMul U (diagMat (E.map rsqrt))).entry i j
            = U.entry i j * rsqrt (E.getD j 0))
      ∧ (∀ puts,
          POD_compute_modes rsqrt smul c P s mode_nums mode_handles
              vec_handles index_from = Except.ok puts
            ↔ compute_modes smul c P mode_nums mode_handles vec_handles
                (matMul U (diagMat (E.map rsqrt))) index_from
              = Except.ok puts)) := by
  constructor
  · intro hmiss
    have herr : ∃ e, POD_compute_modes rsqrt smul c P s mode_nums
        mode_handles vec_handles index_from = Except.error e := by
      unfold POD_compute_modes _compute_build_coeff_mat
      cases hU : s.eigen_vecs with
      | none => exact ⟨_, rfl⟩
      | some U =>
        cases hE : s.eigen_vals with
        | none => exact ⟨_, rfl⟩
        | some E =>
          exfalso
          rcases hmiss with hm | hm
          · rw [hU] at hm
            exact Option.noConfusion hm
          · rw [hE] at hm
            exact Option.noConfusion hm
    refine ⟨herr, ?_⟩
    intro puts hok
    rcases herr with ⟨e, he⟩
    rw [hok] at he
    exact Except.noConfusion he
  · intro U E hU hE
    have hbuild : _compute_build_coeff_mat rsqrt s
        = Except.ok (matMul U (diagMat (E.map rsqrt))) := by
      unfold _compute_build_coeff_mat
      rw [hU, hE]
    refine ⟨hbuild, ?_, ?_⟩
    · intro i j hjU hjE
      rw [matMul_diagMat_entry U _ i j hjU,
        getD_map_Lt rsqrt E j hjE 0 0]
    · have hpod : POD_compute_modes rsqrt smul c P s mode_nums mode_handles
          vec_handles index_from
          = (match compute_modes smul c P mode_nums mode_handles vec_handles
              (matMul U (diagMat (E.map rsqrt))) index_from with
            | Except.error e => Except.error (PODError.engine e)
            | Except.ok puts => Except.ok puts) := by
        unfold POD_compute_modes
        rw [hbuild]
      intro puts
      rw [hpod]
      cases hcm : compute_modes smul c P mode_nums mode_handles vec_handles
          (matMul U (diagMat (E.map rsqrt))) index_from with
      | error e => simp
      | ok l => simp

/-- Witness for C9: a POD state whose `eigen_vecs` is undefined is
rejected before any engine call. -/
theorem C9_witness :
    ∃ e, POD_compute_modes (fun x : ℤ => x) (fun a v : ℤ => a * v) 1 1
        (PODState.mk none (some [1])) [0] [(7 : ℕ)] [(2 : ℤ)] 0
      = Except.error e :=
  ((C9_POD_compute_modes_spec (fun x : ℤ => x) (fun a v : ℤ => a * v) 1 1
    (PODState.mk none (some [1])) [0] [(7 : ℕ)] [(2 : ℤ)] 0).1
    (Or.inl rfl)).1
